import Mathlib

/-!
Shallow embedding of the plan-space search core of the `vhpop` partial-order
causal-link planner (source files `plans.h` / `plans.cc`).

Modelling conventions:

* Persistent `Chain<T>` cons-lists are modelled as Lean `List`s whose head is
  the most recently prepended cell; the null chain is `[]`.
* The external collaborators (the `Bindings` and `Orderings` structures, the
  planning graph, the formula algebra's simplifying operations, `rand()` and
  the global `TermTable`) are out of scope per the specification and appear as
  abstract types and oracle functions collected in a context record.
* `size_t` counters are `Nat`; the one place the code subtracts from a
  `size_t` counter that could be zero is modelled with explicit wrap-around
  (`sub1'`), matching two's-complement `size_t` arithmetic.
* C++ exceptions (`std::logic_error`) are modelled with `Except String`.
* Reference counting, the `parent` back-pointer, the lazily cached `rank_`
  vector and the mutable serial number are bookkeeping with no observable
  effect on the data modelled here and are omitted from the `Plan` record;
  the rank tuple appears separately for the plan comparison operator.
-/

namespace VHP

/- ====================================================================== -/
/- Basic time tags (formulas.h / effects.h collaborators)                 -/

/-- Models `FormulaTime`: time annotation of a (timed) condition. -/
inductive FormulaTime where
  | atStartF
  | overAllF
  | atEndF
deriving DecidableEq, Repr

/-- Models `StepTime`: the two end points of a step. -/
inductive StepTime where
  | atStart
  | atEnd
deriving DecidableEq, Repr

/-- Models `start_time` of a formula time tag. -/
def start_time : FormulaTime → StepTime
  | .atStartF => .atStart
  | .overAllF => .atStart
  | .atEndF => .atEnd

/-- Models `end_time` of a formula time tag. -/
def end_timeF : FormulaTime → StepTime
  | .atStartF => .atStart
  | .overAllF => .atEnd
  | .atEndF => .atEnd

/- ====================================================================== -/
/- Literals and formulas                                                  -/

/-- A literal: an atom (`neg = false`) or a negation of an atom
(`neg = true`), over a predicate symbol and an argument payload.  The
argument terms themselves are only ever inspected by the external
`Bindings` oracle, so they are represented by plain numbers. -/
structure Lit where
  pred : Nat
  neg : Bool
  args : List Nat
deriving DecidableEq, Repr

/-- The closed formula variant used by the goal-admission code
(`Atom | Negation | Conjunction | Disjunction | Exists | Forall |
Equality | Inequality | TimedLiteral` plus the two constants).  `forallF`
stores the result of the external `universal_base` expansion, which is the
only thing `add_goal` ever looks at inside a `Forall`. -/
inductive Formula where
  | top                                              -- Constant TRUE
  | bottom                                           -- Constant FALSE
  | lit (l : Lit)                                    -- Atom / Negation
  | timedLit (l : Lit) (w : FormulaTime)             -- TimedLiteral
  | conj (fs : List Formula)                         -- Conjunction
  | disj (fs : List Formula)                         -- Disjunction
  | bindLit (isEq : Bool) (v : Nat) (id1 : Nat) (t : Nat) (id2 : Nat)
                                                     -- Equality / Inequality
  | exis (body : Formula)                            -- Exists
  | forallF (base : Formula)                         -- Forall (universal base)
deriving Repr

/-- Structural decidable equality for `Formula` (the nested `List Formula`
fields prevent automatic derivation). -/
def Formula.beq : Formula → Formula → Bool
  | .top, .top => true
  | .bottom, .bottom => true
  | .lit l, .lit l' => l = l'
  | .timedLit l w, .timedLit l' w' => l = l' && w = w'
  | .conj fs, .conj gs => beqList fs gs
  | .disj fs, .disj gs => beqList fs gs
  | .bindLit e v i t j, .bindLit e' v' i' t' j' =>
      e = e' && v = v' && i = i' && t = t' && j = j'
  | .exis b, .exis b' => b.beq b'
  | .forallF b, .forallF b' => b.beq b'
  | _, _ => false
where beqList : List Formula → List Formula → Bool
  | [], [] => true
  | f :: fs, g :: gs => f.beq g && beqList fs gs
  | _, _ => false

instance : BEq Formula := ⟨Formula.beq⟩

/-- Models `Formula::tautology()`: only the constant TRUE is a tautology. -/
def Formula.tautology : Formula → Bool
  | .top => true
  | _ => false

/-- Models `Formula::contradiction()`: only the constant FALSE is a contradiction. -/
def Formula.contradiction : Formula → Bool
  | .bottom => true
  | _ => false

/-- Size measure used for termination of the goal-admission worklist. -/
def Formula.size : Formula → Nat
  | .top => 1
  | .bottom => 1
  | .lit _ => 1
  | .timedLit _ _ => 1
  | .conj fs => 1 + sizeList fs
  | .disj fs => 1 + sizeList fs
  | .bindLit _ _ _ _ _ => 1
  | .exis b => 1 + b.size
  | .forallF b => 1 + b.size
where sizeList : List Formula → Nat
  | [] => 0
  | f :: fs => f.size + sizeList fs

/-- Total size of a worklist of formulas. -/
def sumSizes (fs : List Formula) : Nat := (fs.map Formula.size).sum

/-- Models `BindingLiteral::step_id1/step_id2`: a stored id of 0 stands for the
formula's own step. -/
def resolveId (stored stepId : Nat) : Nat :=
  if stored = 0 then stepId else stored

/- ====================================================================== -/
/- Bindings entities                                                      -/

/-- Models `Binding(var, var_id, term, term_id, equal)`. -/
structure Binding where
  var : Nat
  var_id : Nat
  term : Nat
  term_id : Nat
  equal : Bool
deriving DecidableEq, Repr

/- ====================================================================== -/
/- Plan entities                                                          -/

/-- Models `Effect`: literal, time tag, condition, link condition and the
universally quantified parameters. -/
structure Effect where
  lit : Lit
  when : StepTime
  condition : Formula
  link_condition : Formula
  parameters : List Nat
deriving Repr

/-- Models `Effect::arity()`. -/
def Effect.arity (e : Effect) : Nat := e.parameters.length

/-- Models `Effect::quantifies(v)`. -/
def Effect.quantifies (e : Effect) (v : Nat) : Bool := e.parameters.contains v

/-- Models `end_time(effect)`: the time the effect takes hold. -/
def end_timeE (e : Effect) : StepTime := e.when

instance : BEq Effect :=
  ⟨fun e e' => e.lit == e'.lit && e.when == e'.when
    && e.condition.beq e'.condition && e.link_condition.beq e'.link_condition
    && e.parameters == e'.parameters⟩

/-- Models `Action`: name, composite flag, precondition and effects.  `aid` is a
surrogate for the C++ object identity by which the achiever multimaps are
keyed (`std::map<const Action*, ...>` compares pointers). -/
structure Action where
  aid : Nat
  name : List Char
  composite : Bool
  condition : Formula
  effects : List Effect
deriving Repr

instance : BEq Action :=
  ⟨fun a a' => a.aid == a'.aid && a.name == a'.name && a.composite == a'.composite
    && a.condition.beq a'.condition && a.effects == a'.effects⟩

/-- Models `Step {id, action}`. -/
structure Step where
  id : Nat
  action : Action
deriving Repr

instance : BEq Step := ⟨fun s s' => s.id == s'.id && s.action == s'.action⟩

/-- The shape of an open condition's stored formula: a literal, a
disjunction, or an inequality between two variables. -/
inductive OCCond where
  | lit (l : Lit)
  | disj (fs : List Formula)
  | ineq (v1 : Nat) (id1 : Nat) (v2 : Nat) (id2 : Nat)
deriving Repr

instance : BEq OCCond :=
  ⟨fun c c' => match c, c' with
    | .lit l, .lit l' => l == l'
    | .disj fs, .disj gs => Formula.beq.beqList fs gs
    | .ineq a b c d, .ineq a' b' c' d' => a == a' && b == b' && c == c' && d == d'
    | _, _ => false⟩

/-- Models `OpenCondition {step_id, condition, when}`. -/
structure OpenCondition where
  step_id : Nat
  cond : OCCond
  when : FormulaTime
deriving Repr

instance : BEq OpenCondition :=
  ⟨fun o o' => o.step_id == o'.step_id && o.cond == o'.cond && o.when == o'.when⟩

/-- Models `Link(from_id, effect_time, open_cond)`: records the producing step and
time, the consuming step and time, and the established literal. -/
structure Link where
  from_id : Nat
  effect_time : StepTime
  to_id : Nat
  condition : Lit
  condition_time : FormulaTime
deriving Repr

instance : BEq Link :=
  ⟨fun l l' => l.from_id == l'.from_id && l.effect_time == l'.effect_time
    && l.to_id == l'.to_id && l.condition == l'.condition
    && l.condition_time == l'.condition_time⟩

/-- Models `Unsafe {link, step_id, effect}`. -/
structure Unsafe where
  link : Link
  step_id : Nat
  effect : Effect
deriving Repr

instance : BEq Unsafe :=
  ⟨fun u u' => u.link == u'.link && u.step_id == u'.step_id && u.effect == u'.effect⟩

/-- Models `MutexThreat {step_id1, effect1, step_id2, effect2}`; the default
constructed value (both ids 0) is the placeholder seeded into the initial
plan. -/
structure MutexThreat where
  step_id1 : Nat
  effect1 : Option Effect
  step_id2 : Nat
  effect2 : Option Effect
deriving Repr

instance : BEq MutexThreat :=
  ⟨fun m m' => m.step_id1 == m'.step_id1 && m.effect1 == m'.effect1
    && m.step_id2 == m'.step_id2 && m.effect2 == m'.effect2⟩

/-- Models `MutexThreat()`: the placeholder value. -/
def MutexThreat.placeholder : MutexThreat := ⟨0, none, 0, none⟩

/-- Models `UnexpandedCompositeStep {step}`. -/
structure UnexpandedCompositeStep where
  step : Step
deriving Repr

instance : BEq UnexpandedCompositeStep := ⟨fun u u' => u.step == u'.step⟩

/-- Models `UnexpandedCompositeStep::step_id()`. -/
def UnexpandedCompositeStep.step_id (u : UnexpandedCompositeStep) : Nat := u.step.id

/-- Models `Ordering {before_id, t1, after_id, t2}`. -/
structure Ordering' where
  before_id : Nat
  t1 : StepTime
  after_id : Nat
  t2 : StepTime
deriving DecidableEq, Repr

/- ====================================================================== -/
/- Chains                                                                 -/

/-- Modelled from the spec: `Chain<T>::remove(x)` (chain.h is not part of
the given sources) "yields a new chain with the first matching element
omitted (preserving sharing of the remainder)". -/
def chainRemove {α : Type} [BEq α] : List α → α → List α
  | [], _ => []
  | a :: as, x => if a == x then as else a :: chainRemove as x

/- ====================================================================== -/
/- Decomposition entities                                                 -/

/-- Models `Decomposition` schema (decompositions.h collaborator): pseudo-steps,
binding list, ordering list and internal causal links, with the ids of its
dummy initial and final pseudo-steps. -/
structure Decomposition where
  pseudo_steps : List Step
  binding_list : List Binding
  ordering_list : List Ordering'
  link_list : List Link
  dummy_initial_id : Nat
  dummy_final_id : Nat
deriving Repr

/-- Models `DecompositionFrame`: an instantiated decomposition. -/
structure DecompositionFrame where
  steps : List Step
  binding_list : List Binding
  ordering_list : List Ordering'
  link_list : List Link
  dummy_initial_id : Nat
  dummy_final_id : Nat
deriving Repr

/-- Models `DecompositionFrame(instance)` built from a decomposition schema. -/
def DecompositionFrame.ofDecomposition (d : Decomposition) : DecompositionFrame :=
  ⟨d.pseudo_steps, d.binding_list, d.ordering_list, d.link_list,
   d.dummy_initial_id, d.dummy_final_id⟩

/-- Rename a step id in one step. -/
def renameStep (old new : Nat) (s : Step) : Step :=
  if s.id = old then { s with id := new } else s

/-- Modelled from the spec: `DecompositionFrame::swap_steps` (its body is
not part of the given sources): "Allocate a fresh plan id for every
pseudo-step and rewrite all internal references (bindings, orderings,
links, dummy-initial and dummy-final ids)." -/
def DecompositionFrame.swap_steps (f : DecompositionFrame) (old new : Nat) :
    DecompositionFrame where
  steps := f.steps.map (renameStep old new)
  binding_list := f.binding_list.map (fun b =>
    { b with var_id := if b.var_id = old then new else b.var_id,
             term_id := if b.term_id = old then new else b.term_id })
  ordering_list := f.ordering_list.map (fun o =>
    { o with before_id := if o.before_id = old then new else o.before_id,
             after_id := if o.after_id = old then new else o.after_id })
  link_list := f.link_list.map (fun l =>
    { l with from_id := if l.from_id = old then new else l.from_id,
             to_id := if l.to_id = old then new else l.to_id })
  dummy_initial_id := if f.dummy_initial_id = old then new else f.dummy_initial_id
  dummy_final_id := if f.dummy_final_id = old then new else f.dummy_final_id

/-- Models `LinkList::incoming_links(id)` (links.h collaborator): the internal
links whose consumer is the given step. -/
def incoming_links (ls : List Link) (id : Nat) : List Link :=
  ls.filter (fun l => l.to_id = id)

/-- Models `DecompositionLink {composite_id, decomposition_step}`. -/
structure DecompositionLink where
  composite_id : Nat
  decomposition_step : DecompositionFrame
deriving Repr

/- ====================================================================== -/
/- The plan record                                                        -/

/-- The immutable `Plan` record, parameterized by the abstract orderings
and bindings structures `O` and `B`. -/
structure Plan (O B : Type) where
  steps : List Step
  num_steps : Nat
  links : List Link
  num_links : Nat
  orderings : O
  bindings : B
  decomposition_frames : List DecompositionFrame
  num_decomposition_frames : Nat
  decomposition_links : List DecompositionLink
  num_decomposition_links : Nat
  unsafes : List Unsafe
  num_unsafes : Nat
  open_conds : List OpenCondition
  num_open_conds : Nat
  unexpanded_steps : List UnexpandedCompositeStep
  num_unexpanded_steps : Nat
  mutex_threats : List MutexThreat

/-- Models `Plan::GOAL_ID = std::numeric_limits<int>::max()`. -/
def GOAL_ID : Nat := 2147483647

/-- Models `size_t` decrement with two's-complement wrap-around at zero. -/
def sub1' (n : Nat) : Nat := (n + (2 ^ 64 - 1)) % 2 ^ 64

/-- Models `Plan::complete()`: no unsafes, no open conditions, no mutex threats
and no unexpanded composite steps. -/
def Plan.complete {O B : Type} (p : Plan O B) : Bool :=
  p.unsafes.isEmpty && p.open_conds.isEmpty
    && p.mutex_threats.isEmpty && p.unexpanded_steps.isEmpty

/- ====================================================================== -/
/- Planning parameters and collaborator oracles                           -/

/-- The planning `Parameters` fields consulted by the core. -/
structure Params where
  ground_actions : Bool
  domain_constraints : Bool
  strip_static_preconditions : Bool
  random_open_conditions : Bool
deriving Repr

/-- Interface of the external `Bindings` collaborator. -/
structure BindingsOps (B : Type) where
  /-- Models `Bindings::add(list, test_only)`; `none` models the NULL result. -/
  add : B → List Binding → Bool → Option B
  /-- Models `Bindings::add(step_id, action, planning_graph)` (type refinement). -/
  addStep : B → Step → Option B
  /-- Models `Bindings::affects(lit, sid, cond, cond_sid)` (boolean form). -/
  affects : B → Lit → Nat → Lit → Nat → Bool
  /-- Models `Bindings::affects(unifier, lit, sid, cond, cond_sid)`:
  `some unifier` models a `true` result filling the unifier. -/
  affectsU : B → Lit → Nat → Lit → Nat → Option (List Binding)
  /-- Models `Bindings::unify(mgu, lit, sid, lit, sid)`. -/
  unify : B → Lit → Nat → Lit → Nat → Option (List Binding)
  /-- Models `Bindings::consistent_with(neq, 0)` for `var(id1) ≠ term(id2)`. -/
  consistent_with : B → Nat → Nat → Nat → Nat → Bool
  /-- Models `Bindings::domain(v, sid, problem)`: a `NameSet` in iteration order. -/
  vdomain : B → Nat → Nat → List Nat

/-- Interface of the external `Orderings` collaborator. -/
structure OrderingsOps (O B : Type) where
  possibly_before : O → Nat → StepTime → Nat → StepTime → Bool
  possibly_not_before : O → Nat → StepTime → Nat → StepTime → Bool
  possibly_not_after : O → Nat → StepTime → Nat → StepTime → Bool
  /-- Models `Orderings::refine(ordering)`. -/
  refine : O → Ordering' → Option O
  /-- Models `Orderings::refine(ordering, step, planning_graph, bindings)`; the
  bindings argument is `none` when `params->ground_actions`. -/
  refineStep : O → Ordering' → Step → Option B → Option O
  /-- The temporal makespan tightening performed when a planning graph is
  present: `TemporalOrderings::refine(step_id, hs.makespan(), h.makespan())`
  fed by `Formula::heuristic_value`; for non-temporal orderings it returns
  the input unchanged.  Heuristic values are external, so the whole block is
  one oracle taking the goal formula, the step id and the bindings. -/
  refineGoal : O → Nat → Formula → Option B → Option O
  /-- Models `TemporalOrderings::refine(time, step)` for timed initial literals. -/
  refineTimed : O → Int → Step → Option O

/-- The process-wide context: parameters, problem/domain data and all
collaborator oracles (formula algebra, bindings, orderings, planning graph,
`rand()`, `TermTable`). -/
structure Ctx (O B : Type) where
  params : Params
  /-- Models `PredicateTable::static_predicate`. -/
  staticPred : Nat → Bool
  /-- The `rand()` stream, indexed by the number of calls made so far. -/
  rng : Nat → Nat
  /-- Models `domain->requirements.durative_actions`. -/
  durative : Bool
  /-- Models `planning_graph != NULL`. -/
  has_pg : Bool
  bOps : BindingsOps B
  oOps : OrderingsOps O B
  /-- Formula `operator&&` (simplifying, external). -/
  fand : Formula → Formula → Formula
  /-- Formula `operator||` (simplifying, external). -/
  forr : Formula → Formula → Formula
  /-- Formula `operator!` (simplifying, external). -/
  fneg : Formula → Formula
  /-- Models `Formula::substitution(map)` (external). -/
  fsubst : Formula → List (Nat × Nat) → Formula
  /-- Models `Inequality::make(var, var_id, term, term_id)` (simplifying, external). -/
  ineqMake : Nat → Nat → Nat → Nat → Formula
  /-- Construction of a `Forall` formula with the given parameters and body
  (its eventual universal base is external, like the rest of the formula
  algebra). -/
  mkForall : List Nat → Formula → Formula
  /-- Models `TermTable::add_variable(type)`; fresh variables indexed by the number
  of variables created so far in the current operation. -/
  freshVar : Nat → Nat
  /-- Models `achieves_pred`: predicate → achieving (action, effect) pairs. -/
  achieves_pred : List (Nat × List (Action × Effect))
  /-- Models `achieves_neg_pred`. -/
  achieves_neg_pred : List (Nat × List (Action × Effect))
  /-- Models `PlanningGraph::literal_achievers`. -/
  pg_achievers : Lit → Option (List (Action × Effect))
  /-- Models `achieves_composite`: the composite-achiever multimap, keyed by action
  identity. -/
  achieves_composite : List (Action × Decomposition)
  /-- Models `problem.init_action()`. -/
  init_action : Action
  /-- Models `problem.goal()`. -/
  goal_formula : Formula
  /-- Models `problem.goal().instantiation(SubstitutionMap(), problem)` (external). -/
  goal_formula_inst : Formula
  /-- Identity surrogate for the freshly allocated goal action object. -/
  goal_aid : Nat
  /-- Models `problem.timed_actions()` in map iteration order. -/
  timed_actions : List (Int × Action)
  /-- Models `new BinaryOrderings()`. -/
  binaryO : O
  /-- Models `new TemporalOrderings()`. -/
  temporalO : O
  /-- Models `Bindings::EMPTY`. -/
  emptyB : B

/- ====================================================================== -/
/- Goal admission (`add_goal`)                                            -/

/-- The in-out state threaded through `add_goal`: the open-condition chain,
its count and the output binding list. -/
structure AGState where
  open_conds : List OpenCondition
  num_open_conds : Nat
  new_bindings : List Binding
deriving Repr

/-- One worklist insertion.  Without `random_open_conditions` this is
`push_back`; with it, the new formula goes to a `rand()`-chosen position
`pos ∈ [0, size]` and the displaced entry moves to the back.  The worklist
is kept top-first (list head = vector back), so vector position `pos`
is list position `size - 1 - pos`. -/
def pushGoal (random : Bool) (rng : Nat → Nat) (k : Nat)
    (gs : List Formula) (f : Formula) : List Formula :=
  if random then
    let pos := rng k % (gs.length + 1)
    if pos = gs.length then f :: gs
    else
      let j := gs.length - 1 - pos
      match gs.get? j with
      | some old => old :: gs.set j f
      | none => f :: gs
  else f :: gs

/-- Push a conjunction's conjuncts in order, advancing the `rand()` index. -/
def pushGoals (random : Bool) (rng : Nat → Nat) :
    Nat → List Formula → List Formula → List Formula × Nat
  | k, [], gs => (gs, k)
  | k, f :: fs, gs => pushGoals random rng (k + 1) fs (pushGoal random rng k gs f)

theorem sumSizes_cons (f : Formula) (gs : List Formula) :
    sumSizes (f :: gs) = f.size + sumSizes gs := by
  simp [sumSizes]

theorem sumSizes_set (gs : List Formula) :
    ∀ (j : Nat) (f old : Formula), gs.get? j = some old →
      sumSizes (gs.set j f) + old.size = sumSizes gs + f.size := by
  induction gs with
  | nil => intro j f old h; cases h
  | cons g gs ih =>
    intro j f old h
    cases j with
    | zero =>
      rw [List.get?] at h
      cases h
      simp [List.set, sumSizes_cons]
      omega
    | succ j =>
      rw [List.get?] at h
      have := ih j f old h
      simp [List.set, sumSizes_cons]
      omega

theorem sumSizes_pushGoal (random : Bool) (rng : Nat → Nat) (k : Nat)
    (gs : List Formula) (f : Formula) :
    sumSizes (pushGoal random rng k gs f) = f.size + sumSizes gs := by
  simp only [pushGoal]
  split
  · split
    · exact sumSizes_cons f gs
    · split
      · next old h =>
        rw [sumSizes_cons]
        have := sumSizes_set gs _ f old h
        omega
      · exact sumSizes_cons f gs
  · exact sumSizes_cons f gs

theorem sumSizes_pushGoals (random : Bool) (rng : Nat → Nat) :
    ∀ (fs : List Formula) (k : Nat) (gs : List Formula),
      sumSizes (pushGoals random rng k fs gs).1 = sumSizes fs + sumSizes gs := by
  intro fs
  induction fs with
  | nil => intro k gs; simp [pushGoals, sumSizes]
  | cons f fs ih =>
    intro k gs
    rw [pushGoals, ih, sumSizes_pushGoal, sumSizes_cons]
    omega

theorem Formula.size_pos (f : Formula) : 0 < f.size := by
  cases f <;> simp [Formula.size]

theorem sizeList_eq_sumSizes (fs : List Formula) :
    Formula.size.sizeList fs = sumSizes fs := by
  induction fs with
  | nil => simp [Formula.size.sizeList, sumSizes]
  | cons f fs ih => rw [Formula.size.sizeList, ih, sumSizes_cons]

/-- Admission of one (timed) literal goal: append an open condition unless
`test_only` or the predicate is static under `strip_static_preconditions`;
always increment the count. -/
def admitLit {O B : Type} (cx : Ctx O B) (stepId : Nat) (testOnly : Bool)
    (st : AGState) (l : Lit) (w : FormulaTime) : AGState :=
  { st with
    open_conds :=
      if !testOnly
          && !(cx.params.strip_static_preconditions && cx.staticPred l.pred) then
        ⟨stepId, .lit l, w⟩ :: st.open_conds
      else st.open_conds,
    num_open_conds := st.num_open_conds + 1 }

/-- The `add_goal` worklist loop over the shape of the pending goals.  A
constant surviving to this point falls through every `dynamic_cast` and
raises `"unknown kind of goal"`. -/
def processGoals {O B : Type} (cx : Ctx O B) (stepId : Nat) (testOnly : Bool) :
    List Formula → AGState → Nat → Except String AGState
  | [], st, _ => .ok st
  | g :: gs, st, k =>
    match g with
    | .timedLit l w => processGoals cx stepId testOnly gs (admitLit cx stepId testOnly st l w) k
    | .lit l => processGoals cx stepId testOnly gs (admitLit cx stepId testOnly st l .atStartF) k
    | .conj fs =>
        let pg := pushGoals cx.params.random_open_conditions cx.rng k fs gs
        processGoals cx stepId testOnly pg.1 st pg.2
    | .disj ds =>
        processGoals cx stepId testOnly gs
          { st with
            open_conds :=
              if !testOnly then ⟨stepId, .disj ds, .atStartF⟩ :: st.open_conds
              else st.open_conds,
            num_open_conds := st.num_open_conds + 1 } k
    | .bindLit isEq v i1 t i2 =>
        processGoals cx stepId testOnly gs
          { st with new_bindings :=
              st.new_bindings
                ++ [⟨v, resolveId i1 stepId, t, resolveId i2 stepId, isEq⟩] } k
    | .exis body =>
        processGoals cx stepId testOnly
          (pushGoal cx.params.random_open_conditions cx.rng k gs body) st (k + 1)
    | .forallF base =>
        processGoals cx stepId testOnly
          (pushGoal cx.params.random_open_conditions cx.rng k gs base) st (k + 1)
    | .top => .error "unknown kind of goal"
    | .bottom => .error "unknown kind of goal"
termination_by gs _ _ => sumSizes gs
decreasing_by
  all_goals simp only [sumSizes_pushGoals, sumSizes_pushGoal, sumSizes_cons,
    Formula.size, sizeList_eq_sumSizes]
  all_goals omega

/-- Models `add_goal(open_conds, num_open_conds, new_bindings, goal, step_id,
test_only)`: returns true with no change on a tautology, false with no
change on a contradiction, and otherwise decomposes the goal through the
worklist. -/
def add_goal {O B : Type} (cx : Ctx O B) (st : AGState) (goal : Formula)
    (stepId : Nat) (testOnly : Bool) : Except String (Bool × AGState) :=
  if goal.tautology then .ok (true, st)
  else if goal.contradiction then .ok (false, st)
  else
    match processGoals cx stepId testOnly [goal] st 0 with
    | .ok st' => .ok (true, st')
    | .error e => .error e

/- ====================================================================== -/
/- Achiever lookup                                                        -/

/-- Association-list lookup in a `PredicateAchieverMap`. -/
def lookupPred (m : List (Nat × List (Action × Effect))) (p : Nat) :
    Option (List (Action × Effect)) :=
  match m.find? (fun kv => kv.1 = p) with
  | some kv => some kv.2
  | none => none

/-- Models `literal_achievers(literal)`: the planning-graph index when actions are
ground, otherwise the positive or negative predicate achiever map. -/
def literal_achievers {O B : Type} (cx : Ctx O B) (l : Lit) :
    Option (List (Action × Effect)) :=
  if cx.params.ground_actions then cx.pg_achievers l
  else if l.neg = false then lookupPred cx.achieves_pred l.pred
  else lookupPred cx.achieves_neg_pred l.pred

/- ====================================================================== -/
/- Threat detection                                                       -/

/-- Ordering on step end points (`et >= lt2` in the source). -/
def StepTime.idx : StepTime → Nat
  | .atStart => 0
  | .atEnd => 1

/-- Models `link_threats(unsafes, num_unsafes, link, steps, orderings, bindings)`:
prepend an `Unsafe` for every step effect that may fall between the link's
producer and consumer and may affect its condition. -/
def link_threats {O B : Type} (cx : Ctx O B) (link : Link) (steps : List Step)
    (o : O) (b : B) (unsafes : List Unsafe) (num : Nat) : List Unsafe × Nat :=
  let lt1 := link.effect_time
  let lt2 := end_timeF link.condition_time
  steps.foldl (fun acc s =>
    if cx.oOps.possibly_not_after o link.from_id lt1 s.id .atEnd
        && cx.oOps.possibly_not_before o link.to_id lt2 s.id .atStart then
      s.action.effects.foldl (fun acc e =>
        if !cx.durative && e.link_condition.contradiction then acc
        else
          let et := end_timeE e
          if !(s.id = link.to_id && lt2.idx ≤ et.idx)
              && cx.oOps.possibly_not_after o link.from_id lt1 s.id et
              && cx.oOps.possibly_not_before o link.to_id lt2 s.id et then
            if link.condition.neg || !(link.from_id = s.id && lt1 = et) then
              if cx.bOps.affects b e.lit s.id link.condition link.to_id then
                (⟨link, s.id, e⟩ :: acc.1, acc.2 + 1)
              else acc
            else acc
          else acc) acc
    else acc) (unsafes, num)

/-- Models `step_threats(unsafes, num_unsafes, step, links, orderings, bindings)`:
prepend an `Unsafe` for every existing link the given step may threaten. -/
def step_threats {O B : Type} (cx : Ctx O B) (step : Step) (links : List Link)
    (o : O) (b : B) (unsafes : List Unsafe) (num : Nat) : List Unsafe × Nat :=
  links.foldl (fun acc l =>
    let lt1 := l.effect_time
    let lt2 := end_timeF l.condition_time
    if cx.oOps.possibly_not_after o l.from_id lt1 step.id .atEnd
        && cx.oOps.possibly_not_before o l.to_id lt2 step.id .atStart then
      step.action.effects.foldl (fun acc e =>
        if !cx.durative && e.link_condition.contradiction then acc
        else
          let et := end_timeE e
          if !(step.id = l.to_id && lt2.idx ≤ et.idx)
              && cx.oOps.possibly_not_after o l.from_id lt1 step.id et
              && cx.oOps.possibly_not_before o l.to_id lt2 step.id et then
            if l.condition.neg || !(l.from_id = step.id && lt1 = et) then
              if cx.bOps.affects b e.lit step.id l.condition l.to_id then
                (⟨l, step.id, e⟩ :: acc.1, acc.2 + 1)
              else acc
            else acc
          else acc) acc
    else acc) (unsafes, num)

/- ====================================================================== -/
/- Initial plan construction (`make_initial_plan`)                        -/

/-- The loop over `problem.timed_actions()`: one new step per timed initial
literal, refining the temporal orderings after each. -/
def timedLoop {O B : Type} (cx : Ctx O B) :
    O → List Step → Nat → List (Int × Action) → Option (List Step × Nat × O)
  | o, steps, n, [] => some (steps, n, o)
  | o, steps, n, (time, a) :: rest =>
      let s : Step := ⟨n + 1, a⟩
      match cx.oOps.refineTimed o time s with
      | none => none
      | some o' => timedLoop cx o' (s :: steps) (n + 1) rest

/-- Models `Plan::make_initial_plan(problem)`: build the dummy goal action, admit
the problem goal as open conditions, seed the `<init, goal>` step chain,
the timed-literal steps (durative only) and the one-element mutex-threat
placeholder chain.  `none` models the NULL result for inconsistent goals. -/
def make_initial_plan {O B : Type} (cx : Ctx O B) :
    Except String (Option (Plan O B)) :=
  let goal_action : Action :=
    { aid := cx.goal_aid, name := [], composite := false,
      condition :=
        if cx.params.ground_actions then cx.goal_formula_inst else cx.goal_formula,
      effects := [] }
  match add_goal cx ⟨[], 0, []⟩ goal_action.condition GOAL_ID false with
  | .error e => .error e
  | .ok (false, _) => .ok none
  | .ok (true, st) =>
    let mt : List MutexThreat := [MutexThreat.placeholder]
    let steps0 : List Step := [⟨0, cx.init_action⟩, ⟨GOAL_ID, goal_action⟩]
    let mk (steps : List Step) (num_steps : Nat) (o : O) : Plan O B :=
      { steps := steps, num_steps := num_steps,
        links := [], num_links := 0,
        orderings := o, bindings := cx.emptyB,
        decomposition_frames := [], num_decomposition_frames := 0,
        decomposition_links := [], num_decomposition_links := 0,
        unsafes := [], num_unsafes := 0,
        open_conds := st.open_conds, num_open_conds := st.num_open_conds,
        unexpanded_steps := [], num_unexpanded_steps := 0,
        mutex_threats := mt }
    if cx.durative then
      match timedLoop cx cx.temporalO steps0 0 cx.timed_actions with
      | none => .ok none
      | some (steps, n, o) => .ok (some (mk steps n o))
    else
      .ok (some (mk steps0 0 cx.binaryO))

/- ====================================================================== -/
/- Plan comparison (`operator<`)                                          -/

/-- The comparison loop of `operator<(const Plan&, const Plan&)`: continue
through the remaining rank entries while the running difference is zero,
then report whether it is positive.  Rank values are floating-point
heuristic outputs in the source; only their differences' signs are ever
inspected, modelled here over exact integers. -/
def lessAux : Int → List Int → List Int → Bool
  | diff, x :: xs, y :: ys => if diff = 0 then lessAux (x - y) xs ys else decide (diff > 0)
  | diff, _, _ => decide (diff > 0)

/-- Models `operator<(p1, p2)` on the plans' rank tuples: seed the difference from
the primary ranks and run the loop. -/
def planLess (r1 r2 : List Int) : Bool :=
  match r1, r2 with
  | x :: xs, y :: ys => lessAux (x - y) xs ys
  | _, _ => false

/- ====================================================================== -/
/- Link installation (`make_link`)                                        -/

/-- The causal link built by `Link(step.id, end_time(effect), open_cond)`:
producer and time, consumer step and time, and the open condition's
literal. -/
def mkLink (from_id : Nat) (et : StepTime) (oc : OpenCondition) : Link :=
  ⟨from_id, et, oc.step_id,
   (match oc.cond with | .lit l => l | _ => ⟨0, false, []⟩), oc.when⟩

/-- Models `Plan::make_link(plans, step, effect, literal, open_cond, unifier,
test_only)`: the common tail of the add-step and reuse-step repairs.
Returns the list of pushed successor plans together with the `int` return
value. -/
def make_link {O B : Type} (cx : Ctx O B) (p : Plan O B) (step : Step)
    (effect : Effect) (literal : Lit) (oc : OpenCondition)
    (unifier : List Binding) (testOnly : Bool) :
    Except String (List (Plan O B) × Nat) := do
  -- Add bindings needed to unify effect and goal, freshening the variables
  -- the effect universally quantifies over.
  let mut new_bindings : List Binding := []
  let mut forall_subst : List (Nat × Nat) := []
  let mut fresh_count : Nat := 0
  if testOnly then
    new_bindings := unifier
  else
    for subst in unifier do
      if effect.quantifies subst.var then
        let v := cx.freshVar fresh_count
        fresh_count := fresh_count + 1
        forall_subst := forall_subst ++ [(subst.var, v)]
        new_bindings := new_bindings ++ [⟨v, subst.var_id, subst.term, subst.term_id, true⟩]
      else
        new_bindings := new_bindings ++ [subst]
  -- If the effect is conditional, add its condition as a goal.
  let mut new_open_conds : List OpenCondition :=
    if testOnly then [] else chainRemove p.open_conds oc
  let mut new_num_open_conds : Nat :=
    if testOnly then 0 else sub1' p.num_open_conds
  let mut cond_goal : Formula := cx.fand effect.condition effect.link_condition
  if !cond_goal.tautology then
    if !testOnly then
      if effect.arity > 0 then
        for i in List.range effect.arity do
          let vi := effect.parameters.getD i 0
          if (forall_subst.find? (fun pr => pr.1 = vi)).isNone then
            let v := cx.freshVar fresh_count
            fresh_count := fresh_count + 1
            forall_subst := forall_subst ++ [(vi, v)]
        cond_goal := cx.fsubst cond_goal forall_subst
    let (added, st) ←
      add_goal cx ⟨new_open_conds, new_num_open_conds, new_bindings⟩ cond_goal step.id testOnly
    new_open_conds := st.open_conds
    new_num_open_conds := st.num_open_conds
    new_bindings := st.new_bindings
    if !added then
      return ([], 0)
  -- See if this is a new step.
  let mut bindings : B := p.bindings
  let mut new_steps : List Step := if testOnly then [] else p.steps
  let mut new_num_steps : Nat := if testOnly then 0 else p.num_steps
  if step.id > p.num_steps then
    let (added, st) ←
      add_goal cx ⟨new_open_conds, new_num_open_conds, new_bindings⟩
        step.action.condition step.id testOnly
    new_open_conds := st.open_conds
    new_num_open_conds := st.num_open_conds
    new_bindings := st.new_bindings
    if !added then
      return ([], 0)
    if cx.params.domain_constraints then
      match cx.bOps.addStep bindings step with
      | none => return ([], 0)
      | some b2 => bindings := b2
    if !testOnly then
      new_steps := step :: new_steps
      new_num_steps := new_num_steps + 1
  let tmp_bindings := cx.bOps.add bindings new_bindings testOnly
  if !testOnly then
    match tmp_bindings with
    | none => return ([], 0)
    | some b2 =>
      let et := end_timeE effect
      let gt := start_time oc.when
      match cx.oOps.refineStep p.orderings ⟨step.id, et, oc.step_id, gt⟩ step
          (if cx.params.ground_actions then none else some b2) with
      | none => return ([], 0)
      | some o1 =>
        -- Temporal tightening by the condition's heuristic makespan.
        let o2 :=
          if !cond_goal.tautology && cx.has_pg then
            cx.oOps.refineGoal o1 step.id cond_goal
              (if cx.params.ground_actions then none else some b2)
          else some o1
        match o2 with
        | none => return ([], 0)
        | some new_orderings =>
          -- Add the new link and find threats to it.
          let nl := mkLink step.id (end_timeE effect) oc
          let lt := link_threats cx nl new_steps new_orderings b2 p.unsafes p.num_unsafes
          -- If this is a new step, find the links it threatens.
          let st2 :=
            if step.id > p.num_steps then
              step_threats cx step p.links new_orderings b2 lt.1 lt.2
            else lt
          -- If this is a new composite step, register an unexpanded
          -- composite step flaw.  (The chain variable starts out null and
          -- is only assigned on the new-step path.)
          let ue : List UnexpandedCompositeStep × Nat :=
            if step.id > p.num_steps then
              if step.action.composite then
                (⟨step⟩ :: p.unexpanded_steps, p.num_unexpanded_steps + 1)
              else
                (p.unexpanded_steps, p.num_unexpanded_steps)
            else ([], p.num_unexpanded_steps)
          return ([{ steps := new_steps, num_steps := new_num_steps,
                     links := nl :: p.links, num_links := p.num_links + 1,
                     orderings := new_orderings, bindings := b2,
                     decomposition_frames := p.decomposition_frames,
                     num_decomposition_frames := p.num_decomposition_frames,
                     decomposition_links := p.decomposition_links,
                     num_decomposition_links := p.num_decomposition_links,
                     unsafes := st2.1, num_unsafes := st2.2,
                     open_conds := new_open_conds,
                     num_open_conds := new_num_open_conds,
                     unexpanded_steps := ue.1, num_unexpanded_steps := ue.2,
                     mutex_threats := p.mutex_threats }], 1)
  -- test_only: the source's early return for a NULL bindings result is
  -- guarded by !test_only, so the test-only path reports success here.
  return ([], 1)

/-- Models `Plan::new_link`: unify the effect literal with the open condition and
install the link. -/
def new_link {O B : Type} (cx : Ctx O B) (p : Plan O B) (step : Step)
    (effect : Effect) (literal : Lit) (oc : OpenCondition) (testOnly : Bool) :
    Except String (List (Plan O B) × Nat) :=
  match cx.bOps.unify p.bindings effect.lit step.id literal oc.step_id with
  | some mgu => make_link cx p step effect literal oc mgu testOnly
  | none => .ok ([], 0)

/- ====================================================================== -/
/- Literal open-condition repair: add-step and reuse-step                 -/

/-- Models `Plan::add_step(plans, literal, open_cond, achievers)`: one new-step
successor attempt per achieving (action, effect) pair, skipping the dummy
actions whose name begins with `<`. -/
def add_step {O B : Type} (cx : Ctx O B) (p : Plan O B) (literal : Lit)
    (oc : OpenCondition) : List (Action × Effect) → Except String (List (Plan O B))
  | [] => .ok []
  | ae :: rest => do
    if ae.1.name.take 1 ≠ ['<'] then
      let (ps, _) ← new_link cx p ⟨p.num_steps + 1, ae.1⟩ ae.2 literal oc false
      let tail ← add_step cx p literal oc rest
      return ps ++ tail
    else
      add_step cx p literal oc rest

/-- The counting loop of `Plan::addable_steps`: a test-only `new_link` per
non-dummy achiever pair, aborting with `none` (the `false` return, with the
out-parameter unset) as soon as the count exceeds the limit. -/
def addable_loop {O B : Type} (cx : Ctx O B) (p : Plan O B) (literal : Lit)
    (oc : OpenCondition) (limit : Nat) :
    List (Action × Effect) → Nat → Except String (Option Nat)
  | [], count => .ok (some count)
  | ae :: rest, count => do
    if ae.1.name.take 1 ≠ ['<'] then
      let (_, c) ← new_link cx p ⟨p.num_steps + 1, ae.1⟩ ae.2 literal oc true
      let count' := count + c
      if count' > limit then
        return none
      else
        addable_loop cx p literal oc limit rest count'
    else
      addable_loop cx p literal oc limit rest count

/-- Models `Plan::addable_steps(refinements, literal, open_cond, limit)`: count
the add-step refinements over the literal's achievers. -/
def addable_steps {O B : Type} (cx : Ctx O B) (p : Plan O B) (literal : Lit)
    (oc : OpenCondition) (limit : Nat) : Except String (Option Nat) :=
  match literal_achievers cx literal with
  | some achieverList => addable_loop cx p literal oc limit achieverList 0
  | none => .ok (some 0)

/-- Models `Plan::reuse_step(plans, literal, open_cond, achievers)`: one successor
attempt per effect of an existing step possibly ordered before the
consumer, looked up in the achiever multimap by action identity. -/
def reuse_step {O B : Type} (cx : Ctx O B) (p : Plan O B) (literal : Lit)
    (oc : OpenCondition) (achievers : List (Action × Effect)) :
    Except String (List (Plan O B)) := do
  let gt := start_time oc.when
  let mut plans : List (Plan O B) := []
  for s in p.steps do
    if cx.oOps.possibly_before p.orderings s.id .atStart oc.step_id gt then
      for ae in achievers do
        if ae.1.aid = s.action.aid then
          let effect := ae.2
          let et := end_timeE effect
          if cx.oOps.possibly_before p.orderings s.id et oc.step_id gt then
            let (ps, _) ← new_link cx p s effect literal oc false
            plans := plans ++ ps
  return plans

/- ====================================================================== -/
/- Unsafe-link repair                                                     -/

/-- The single successor discharging a bogus unsafe flaw: every field of
the parent is kept except that the unsafe entry is removed and the unsafe
count decremented. -/
def bogusUnsafePlan {O B : Type} (p : Plan O B) (u : Unsafe) : Plan O B :=
  { p with unsafes := chainRemove p.unsafes u, num_unsafes := sub1' p.num_unsafes }

/-- Models `Plan::new_ordering(plans, before_id, t1, after_id, t2, unsafe)`. -/
def new_orderingU {O B : Type} (cx : Ctx O B) (p : Plan O B) (before_id : Nat)
    (t1 : StepTime) (after_id : Nat) (t2 : StepTime) (u : Unsafe) :
    List (Plan O B) :=
  match cx.oOps.refine p.orderings ⟨before_id, t1, after_id, t2⟩ with
  | some o => [{ p with
                 orderings := o,
                 unsafes := chainRemove p.unsafes u,
                 num_unsafes := sub1' p.num_unsafes }]
  | none => []

/-- Models `Plan::demote(plans, unsafe, test_only)`: order the threatening step
before the link's producer. -/
def demote {O B : Type} (cx : Ctx O B) (p : Plan O B) (u : Unsafe)
    (testOnly : Bool) : List (Plan O B) × Nat :=
  let lt1 := u.link.effect_time
  let et := end_timeE u.effect
  if cx.oOps.possibly_before p.orderings u.step_id et u.link.from_id lt1 then
    ((if testOnly then [] else new_orderingU cx p u.step_id et u.link.from_id lt1 u), 1)
  else ([], 0)

/-- Models `Plan::promote(plans, unsafe, test_only)`: order the link's consumer
before the threatening step. -/
def promote {O B : Type} (cx : Ctx O B) (p : Plan O B) (u : Unsafe)
    (testOnly : Bool) : List (Plan O B) × Nat :=
  let lt2 := end_timeF u.link.condition_time
  let et := end_timeE u.effect
  if cx.oOps.possibly_before p.orderings u.link.to_id lt2 u.step_id et then
    ((if testOnly then [] else new_orderingU cx p u.link.to_id lt2 u.step_id et u), 1)
  else ([], 0)

/-- Models `Plan::separate(plans, unsafe, unifier, test_only)`: admit, as a new
disjunctive goal, the negations of the unifier's bindings (skipping the
variables the effect quantifies over) together with the universal negation
of a conditional effect's condition. -/
def separate {O B : Type} (cx : Ctx O B) (p : Plan O B) (u : Unsafe)
    (unifier : List Binding) (testOnly : Bool) :
    Except String (List (Plan O B) × Nat) := do
  let mut goal : Formula := .bottom
  for subst in unifier do
    if !(u.effect.quantifies subst.var) then
      let g := cx.ineqMake subst.var subst.var_id subst.term subst.term_id
      -- dynamic_cast<const Inequality*>: did `Inequality::make` simplify?
      let isNeq := match g with | .bindLit false _ _ _ _ => true | _ => false
      if !isNeq
          || cx.bOps.consistent_with p.bindings subst.var subst.var_id
               subst.term subst.term_id then
        goal := cx.forr goal g
  let effect_cond := u.effect.condition
  if !effect_cond.tautology then
    let n := u.effect.arity
    if n > 0 then
      -- Re-parameterize the universally quantified condition.
      let mut forall_subst : List (Nat × Nat) := []
      let mut fresh_count : Nat := 0
      let mut fparams : List Nat := []
      for i in List.range n do
        let vi := u.effect.parameters.getD i 0
        let v := if testOnly then vi else cx.freshVar fresh_count
        fresh_count := fresh_count + 1
        fparams := fparams ++ [v]
        if !testOnly then
          forall_subst := forall_subst ++ [(vi, v)]
      let body :=
        if testOnly then cx.fneg effect_cond
        else cx.fneg (cx.fsubst effect_cond forall_subst)
      let forall_cond :=
        if body.tautology || body.contradiction then body
        else cx.mkForall fparams body
      goal := cx.forr goal forall_cond
    else
      goal := cx.forr goal (cx.fneg effect_cond)
  let (added, st) ←
    add_goal cx ⟨(if testOnly then [] else p.open_conds),
                 (if testOnly then 0 else p.num_open_conds), []⟩
      goal u.step_id testOnly
  let mut count : Nat := 0
  let mut plans : List (Plan O B) := []
  if added then
    match cx.bOps.add p.bindings st.new_bindings testOnly with
    | some b =>
      if !testOnly then
        let o? :=
          if !goal.tautology && cx.has_pg then
            cx.oOps.refineGoal p.orderings u.step_id goal
              (if cx.params.ground_actions then none else some b)
          else some p.orderings
        match o? with
        | some o =>
          plans := [{ p with
                      orderings := o, bindings := b,
                      unsafes := chainRemove p.unsafes u,
                      num_unsafes := sub1' p.num_unsafes,
                      open_conds := st.open_conds,
                      num_open_conds := st.num_open_conds }]
        | none => pure ()
      count := count + 1
    | none => pure ()
  return (plans, count)

/-- Models the Plan member handle_unsafe (plans.cc): a real threat is repaired by
separation, promotion and demotion; a bogus flaw is discharged by a single
successor that merely drops the unsafe entry. -/
def handle_unsafe {O B : Type} (cx : Ctx O B) (p : Plan O B) (u : Unsafe) :
    Except String (List (Plan O B)) := do
  let lt1 := u.link.effect_time
  let lt2 := end_timeF u.link.condition_time
  let et := end_timeE u.effect
  if cx.oOps.possibly_not_after p.orderings u.link.from_id lt1 u.step_id et
      && cx.oOps.possibly_not_before p.orderings u.link.to_id lt2 u.step_id et then
    match cx.bOps.affectsU p.bindings u.effect.lit u.step_id
        u.link.condition u.link.to_id with
    | some unifier =>
      let (ps, _) ← separate cx p u unifier false
      return ps ++ (promote cx p u false).1 ++ (demote cx p u false).1
    | none => return [bogusUnsafePlan p u]
  else
    return [bogusUnsafePlan p u]

/- ====================================================================== -/
/- Inequality open-condition repair                                       -/

/-- Models `Plan::handle_inequality(plans, neq, open_cond, test_only)`: branch on
the variable with the smaller domain; for every object in its domain, one
successor binding that variable to the object and the other side away from
it, with the inequality open condition removed.  Returns the pushed plans
and the `int` count. -/
def handle_inequality {O B : Type} (cx : Ctx O B) (p : Plan O B)
    (nv1 nid1 nv2 nid2 : Nat) (oc : OpenCondition) (testOnly : Bool) :
    List (Plan O B) × Nat :=
  let step_id := oc.step_id
  let d1 := cx.bOps.vdomain p.bindings nv1 (resolveId nid1 step_id)
  let d2 := cx.bOps.vdomain p.bindings nv2 (resolveId nid2 step_id)
  -- Branch on the variable with the smallest domain.
  let var1 := if d1.length < d2.length then nv1 else nv2
  let id1 := if d1.length < d2.length then resolveId nid1 step_id
             else resolveId nid2 step_id
  let var2 := if d1.length < d2.length then nv2 else nv1
  let id2 := if d1.length < d2.length then resolveId nid2 step_id
             else resolveId nid1 step_id
  let var_domain := if d1.length < d2.length then d1 else d2
  var_domain.foldl (fun acc name =>
    match cx.bOps.add p.bindings
        [⟨var1, id1, name, 0, true⟩, ⟨var2, id2, name, 0, false⟩] testOnly with
    | some b =>
        ((acc.1 ++
          if testOnly then []
          else [{ p with
                  bindings := b,
                  open_conds := chainRemove p.open_conds oc,
                  num_open_conds := sub1' p.num_open_conds }]),
         acc.2 + 1)
    | none => acc) ([], 0)

/- ====================================================================== -/
/- Decomposition (composite step) repair                                  -/

/-- The per-plan state threaded through the pseudo-step installation loop
of `add_decomposition_frame`. -/
structure InstallSt (O B : Type) where
  new_steps : List Step
  new_num_steps : Nat
  new_open_conds : List OpenCondition
  new_num_open_conds : Nat
  new_unexpanded_steps : List UnexpandedCompositeStep
  new_num_unexpanded_steps : Nat
  new_bindings : B

/-- The pseudo-step installation loop of `add_decomposition_frame`:
instantiate pseudo-step `si = total - n` as a wholly new plan step with id
`num_steps + 1 + si`, rewrite the frame's internal references, register an
unexpanded-composite-step flaw for a composite action, admit the step's
precondition as open conditions and fold its bindings; `none` models the
`goto fail` paths. -/
def installSteps {O B : Type} (cx : Ctx O B) (p : Plan O B) (total : Nat) :
    Nat → DecompositionFrame → InstallSt O B →
    Except String (Option (DecompositionFrame × InstallSt O B))
  | 0, inst, st => .ok (some (inst, st))
  | Nat.succ n, inst, st =>
    let si := total - Nat.succ n
    let pseudo := inst.steps.getD si ⟨0, cx.init_action⟩
    let new_step : Step := ⟨p.num_steps + 1 + si, pseudo.action⟩
    let inst' := inst.swap_steps pseudo.id new_step.id
    let st1 : InstallSt O B :=
      { st with
        new_steps := new_step :: st.new_steps,
        new_num_steps := st.new_num_steps + 1 }
    let st2 : InstallSt O B :=
      if new_step.action.composite then
        { st1 with
          new_unexpanded_steps :=
            UnexpandedCompositeStep.mk new_step :: st1.new_unexpanded_steps,
          new_num_unexpanded_steps := st1.new_num_unexpanded_steps + 1 }
      else st1
    match add_goal cx ⟨st2.new_open_conds, st2.new_num_open_conds, []⟩
        new_step.action.condition new_step.id false with
    | .error e => .error e
    | .ok (gc, ag) =>
      let st3 : InstallSt O B :=
        { st2 with
          new_open_conds := ag.open_conds,
          new_num_open_conds := ag.num_open_conds }
      if !gc then
        .ok none
      else
        match cx.bOps.add st3.new_bindings ag.new_bindings false with
        | none => .ok none
        | some b => installSteps cx p total n inst' { st3 with new_bindings := b }

/-- Orderings I of `add_decomposition_frame`: the frame's dummy final
before every step the composite step contributed to. -/
def refineContrib {O B : Type} (cx : Ctx O B) (dummy_final_id : Nat)
    (dummy_goal_step : Step) (b : B) : O → List Nat → Option O
  | o, [] => some o
  | o, id :: rest =>
    match cx.oOps.refineStep o ⟨dummy_final_id, .atEnd, id, .atStart⟩
        dummy_goal_step (if cx.params.ground_actions then none else some b) with
    | none => none
    | some o' => refineContrib cx dummy_final_id dummy_goal_step b o' rest

/-- Orderings II, inner loop: one refinement per incoming internal link of
a given step, placing its ancestor before it. -/
def refineAncestorsInner {O B : Type} (cx : Ctx O B) (inst : DecompositionFrame)
    (dummy_goal_id : Nat) (b : B) (step : Step) : O → List Link → Option O
  | o, [] => some o
  | o, il :: rest =>
    let ancestor_id := il.from_id
    let ancestor_step := inst.steps.getD (ancestor_id - dummy_goal_id)
      ⟨0, ⟨0, [], false, .top, []⟩⟩
    match cx.oOps.refineStep o ⟨ancestor_id, .atEnd, step.id, .atStart⟩
        ancestor_step (if cx.params.ground_actions then none else some b) with
    | none => none
    | some o' => refineAncestorsInner cx inst dummy_goal_id b step o' rest

/-- Orderings II, outer loop over the frame's steps. -/
def refineAncestors {O B : Type} (cx : Ctx O B) (inst : DecompositionFrame)
    (dummy_goal_id : Nat) (b : B) : O → List Step → Option O
  | o, [] => some o
  | o, step :: rest =>
    match refineAncestorsInner cx inst dummy_goal_id b step o
        (incoming_links inst.link_list step.id) with
    | none => none
    | some o' => refineAncestors cx inst dummy_goal_id b o' rest

/-- Orderings III: the decomposition's explicitly declared orderings. -/
def refineExplicit {O B : Type} (cx : Ctx O B) : O → List Ordering' → Option O
  | o, [] => some o
  | o, od :: rest =>
    match cx.oOps.refine o od with
    | none => none
    | some o' => refineExplicit cx o' rest

/-- Models `Plan::add_decomposition_frame(plans, unexpanded, expansion)`: install
one decomposition frame, producing at most one successor (`none` models the
`goto fail` outcome).  The decomposition link and frame chains record the
instance before the pseudo-step ids are rewritten, because the C++ chains
copy the frame by value before `swap_steps` mutates it. -/
def add_decomposition_frame {O B : Type} (cx : Ctx O B) (p : Plan O B)
    (unexpanded : UnexpandedCompositeStep) (expansion : Decomposition) :
    Except String (Option (Plan O B)) :=
  -- Instantiate the decomposition.
  let inst0 := DecompositionFrame.ofDecomposition expansion
  let new_decomposition_links :=
    DecompositionLink.mk unexpanded.step_id inst0 :: p.decomposition_links
  let new_num_decomposition_links := p.num_decomposition_links + 1
  let new_decomposition_frames := inst0 :: p.decomposition_frames
  let new_num_decomposition_frames := p.num_decomposition_frames + 1
  -- Instantiate all pseudo-steps as wholly new steps.
  let st0 : InstallSt O B :=
    ⟨p.steps, p.num_steps, p.open_conds, p.num_open_conds,
     p.unexpanded_steps, p.num_unexpanded_steps, p.bindings⟩
  match installSteps cx p inst0.steps.length inst0.steps.length inst0 st0 with
  | .error e => .error e
  | .ok none => .ok none
  | .ok (some (inst, st)) =>
    -- Update bindings with the decomposition's own binding list.
    match cx.bOps.add st.new_bindings inst.binding_list false with
    | none => .ok none
    | some nb =>
      -- Orderings.
      let contributes :=
        (p.links.filter (fun lc => lc.from_id = unexpanded.step_id)).map
          (fun lc => lc.to_id)
      let dummy_goal_step := inst.steps.getD 0 ⟨0, cx.init_action⟩
      match refineContrib cx inst.dummy_final_id dummy_goal_step nb
          p.orderings contributes with
      | none => .ok none
      | some o1 =>
        match refineAncestors cx inst dummy_goal_step.id nb o1 inst.steps with
        | none => .ok none
        | some o2 =>
          match refineExplicit cx o2 inst.ordering_list with
          | none => .ok none
          | some o3 =>
            -- Links: prepend each internal link (threat detection on the
            -- new links is a TODO in the source).
            let new_links := inst.link_list.foldl (fun acc l => l :: acc) p.links
            let new_num_links := p.num_links + inst.link_list.length
            -- Remove the unexpanded composite step flaw.
            .ok (some
              { steps := st.new_steps, num_steps := st.new_num_steps,
                links := new_links, num_links := new_num_links,
                orderings := o3, bindings := nb,
                decomposition_frames := new_decomposition_frames,
                num_decomposition_frames := new_num_decomposition_frames,
                decomposition_links := new_decomposition_links,
                num_decomposition_links := new_num_decomposition_links,
                unsafes := p.unsafes, num_unsafes := p.num_unsafes,
                open_conds := st.new_open_conds,
                num_open_conds := st.new_num_open_conds,
                unexpanded_steps := chainRemove st.new_unexpanded_steps unexpanded,
                num_unexpanded_steps := sub1' st.new_num_unexpanded_steps,
                mutex_threats := p.mutex_threats })

/-- The iteration of `handle_unexpanded_composite_step` over the range of
applicable decompositions, pushing each successful expansion. -/
def decompLoop {O B : Type} (cx : Ctx O B) (p : Plan O B)
    (u : UnexpandedCompositeStep) :
    List (Action × Decomposition) → List (Plan O B) →
    Except String (List (Plan O B))
  | [], plans => .ok plans
  | ad :: rest, plans =>
    match add_decomposition_frame cx p u ad.2 with
    | .error e => .error e
    | .ok (some q) => decompLoop cx p u rest (plans ++ [q])
    | .ok none => decompLoop cx p u rest plans

/-- Models `Plan::handle_unexpanded_composite_step(plans, unexpanded)`: look up
every decomposition of the step's action in the composite-achiever
multimap (keyed by action identity) and install each applicable one. -/
def handle_unexpanded_composite_step {O B : Type} (cx : Ctx O B)
    (p : Plan O B) (u : UnexpandedCompositeStep) :
    Except String (List (Plan O B)) :=
  decompLoop cx p u
    (cx.achieves_composite.filter (fun ad => ad.1.aid = u.step.action.aid)) []

/- ====================================================================== -/
/- Concrete collaborator instances (used by witnesses and counterexamples) -/

/-- Trivial concrete bindings structure: every addition is consistent, no
effect affects anything, nothing unifies, all domains are empty. -/
def bOps0 : BindingsOps Unit where
  add := fun _ _ _ => some ()
  addStep := fun _ _ => some ()
  affects := fun _ _ _ _ _ => false
  affectsU := fun _ _ _ _ _ => none
  unify := fun _ _ _ _ _ => none
  consistent_with := fun _ _ _ _ _ => true
  vdomain := fun _ _ _ => []

/-- Trivial concrete orderings structure: no `possibly_*` query holds and
every refinement succeeds. -/
def oOps0 : OrderingsOps Unit Unit where
  possibly_before := fun _ _ _ _ _ => false
  possibly_not_before := fun _ _ _ _ _ => false
  possibly_not_after := fun _ _ _ _ _ => false
  refine := fun _ _ => some ()
  refineStep := fun _ _ _ _ => some ()
  refineGoal := fun _ _ _ _ => some ()
  refineTimed := fun _ _ _ => some ()

/-- A concrete dummy init action (`<init>` begins with `<`). -/
def initAct : Action := ⟨0, ['<', 'i', 'n', 'i', 't', '>'], false, .top, []⟩

/-- A concrete context over the trivial collaborators, with an empty
(tautological) problem goal. -/
def ctx0 : Ctx Unit Unit where
  params := ⟨false, false, false, false⟩
  staticPred := fun _ => false
  rng := fun _ => 0
  durative := false
  has_pg := false
  bOps := bOps0
  oOps := oOps0
  fand := fun a b => if a.tautology then b else if b.tautology then a else .conj [a, b]
  forr := fun a b => if a.contradiction then b else if b.contradiction then a else .disj [a, b]
  fneg := fun a =>
    match a with
    | .top => .bottom
    | .bottom => .top
    | .lit l => .lit { l with neg := !l.neg }
    | f => f
  fsubst := fun f _ => f
  ineqMake := fun v i t j => .bindLit false v i t j
  mkForall := fun _ b => .forallF b
  freshVar := fun k => 1000 + k
  achieves_pred := []
  achieves_neg_pred := []
  pg_achievers := fun _ => none
  achieves_composite := []
  init_action := initAct
  goal_formula := .top
  goal_formula_inst := .top
  goal_aid := 999
  timed_actions := []
  binaryO := ()
  temporalO := ()
  emptyB := ()

/- ====================================================================== -/
/- C3                                                                     -/

/-- C3: `Plan::complete()` returns true if and only if all four flaw
chains — unsafes, open conditions, mutex threats, and unexpanded composite
steps — are empty. -/
theorem C3_complete_iff_all_flaw_chains_empty {O B : Type} (p : Plan O B) :
    p.complete = true ↔
      p.unsafes = [] ∧ p.open_conds = [] ∧ p.mutex_threats = [] ∧
        p.unexpanded_steps = [] := by
  simp [Plan.complete, List.isEmpty_iff, and_assoc]

/- ====================================================================== -/
/- C4                                                                     -/

theorem add_goal_of_contradiction {O B : Type} (cx : Ctx O B) (st : AGState)
    (goal : Formula) (stepId : Nat) (testOnly : Bool)
    (h : goal.contradiction = true) :
    add_goal cx st goal stepId testOnly = .ok (false, st) := by
  cases goal <;> simp_all [Formula.contradiction, add_goal, Formula.tautology]

theorem add_goal_of_tautology {O B : Type} (cx : Ctx O B) (st : AGState)
    (goal : Formula) (stepId : Nat) (testOnly : Bool)
    (h : goal.tautology = true) :
    add_goal cx st goal stepId testOnly = .ok (true, st) := by
  cases goal <;> simp_all [Formula.tautology, add_goal]

theorem add_goal_ne_false {O B : Type} (cx : Ctx O B) (st : AGState)
    (goal : Formula) (stepId : Nat) (testOnly : Bool)
    (h : goal.contradiction = false) (st' : AGState) :
    add_goal cx st goal stepId testOnly ≠ .ok (false, st') := by
  intro hc
  cases goal
  case bottom => simp [Formula.contradiction] at h
  all_goals
    simp only [add_goal, Formula.tautology, Formula.contradiction,
      Bool.false_eq_true, if_false, if_true] at hc
  all_goals
    first
    | simp at hc
    | (split at hc <;> simp_all)

/-- C4: `add_goal` returns false if and only if the formula is a
contradiction, and when it returns false the open-condition chain, the
open-condition count and the output binding list are unchanged. -/
theorem C4_add_goal_false_iff_contradiction {O B : Type} (cx : Ctx O B)
    (st : AGState) (goal : Formula) (stepId : Nat) (testOnly : Bool) :
    (add_goal cx st goal stepId testOnly = .ok (false, st) ↔
      goal.contradiction = true)
    ∧ (∀ st', add_goal cx st goal stepId testOnly = .ok (false, st') →
        st' = st) := by
  constructor
  · constructor
    · intro h
      by_contra hc
      have hfalse : goal.contradiction = false := by
        cases hcon : goal.contradiction
        · rfl
        · exact absurd hcon hc
      exact add_goal_ne_false cx st goal stepId testOnly hfalse st h
    · exact add_goal_of_contradiction cx st goal stepId testOnly
  · intro st' h
    cases hcon : goal.contradiction with
    | false => exact absurd h (add_goal_ne_false cx st goal stepId testOnly hcon st')
    | true =>
      have h2 := add_goal_of_contradiction cx st goal stepId testOnly hcon
      rw [h2] at h
      cases h
      rfl

/-- Witness for C4: the contradiction constant at a concrete state. -/
theorem C4_witness :
    add_goal ctx0 ⟨[], 0, []⟩ .bottom 5 false = .ok (false, ⟨[], 0, []⟩) :=
  (C4_add_goal_false_iff_contradiction ctx0 ⟨[], 0, []⟩ .bottom 5 false).1.mpr rfl

/- ====================================================================== -/
/- C5                                                                     -/

/-- C5: admitting a (timed) literal goal appends an
`OpenCondition(step_id, literal, when)` unless `test_only` is set or the
predicate is static under `strip_static_preconditions`; the count is
incremented in every case; `when` defaults to `AT_START` for a plain
literal. -/
theorem C5_add_goal_literal {O B : Type} (cx : Ctx O B) (st : AGState)
    (l : Lit) (w : FormulaTime) (stepId : Nat) (testOnly : Bool) :
    (add_goal cx st (.timedLit l w) stepId testOnly = .ok (true,
      { st with
        open_conds :=
          if !testOnly
              && !(cx.params.strip_static_preconditions && cx.staticPred l.pred)
          then ⟨stepId, .lit l, w⟩ :: st.open_conds else st.open_conds,
        num_open_conds := st.num_open_conds + 1 }))
    ∧ (add_goal cx st (.lit l) stepId testOnly = .ok (true,
      { st with
        open_conds :=
          if !testOnly
              && !(cx.params.strip_static_preconditions && cx.staticPred l.pred)
          then ⟨stepId, .lit l, .atStartF⟩ :: st.open_conds else st.open_conds,
        num_open_conds := st.num_open_conds + 1 })) := by
  constructor <;>
    simp [add_goal, Formula.tautology, Formula.contradiction, processGoals,
      admitLit]

/- ====================================================================== -/
/- C1                                                                     -/

/-- The initial plan `make_initial_plan` builds for the empty-goal problem
of `ctx0`: no flaws except the mutex-threat placeholder chain. -/
def pInit0 : Plan Unit Unit :=
  { steps := [⟨0, initAct⟩, ⟨GOAL_ID, ⟨999, [], false, .top, []⟩⟩],
    num_steps := 0, links := [], num_links := 0,
    orderings := (), bindings := (),
    decomposition_frames := [], num_decomposition_frames := 0,
    decomposition_links := [], num_decomposition_links := 0,
    unsafes := [], num_unsafes := 0,
    open_conds := [], num_open_conds := 0,
    unexpanded_steps := [], num_unexpanded_steps := 0,
    mutex_threats := [MutexThreat.placeholder] }

/-- C1 counterexample: for the concrete problem whose goal formula is the
tautology, the initial plan is NOT immediately complete — the unconditional
mutex-threat placeholder chain makes `Plan::complete()` return false before
any refinement. -/
theorem C1_counterexample :
    Ctx.goal_formula ctx0 = Formula.top
    ∧ make_initial_plan ctx0 = .ok (some pInit0)
    ∧ pInit0.complete = false :=
  ⟨rfl, rfl, rfl⟩

/-- C1 (amended): for a problem whose goal formula is a tautology and a
non-durative domain, the initial plan has empty unsafe, open-condition and
unexpanded-step chains, but carries the one-element mutex-threat
placeholder chain, so `Plan::complete()` returns false on it before any
refinement. -/
theorem C1_empty_goal_initial_plan {O B : Type} (cx : Ctx O B)
    (hg : (if cx.params.ground_actions then cx.goal_formula_inst
           else cx.goal_formula).tautology = true)
    (hd : cx.durative = false) :
    ∃ p : Plan O B, make_initial_plan cx = .ok (some p)
      ∧ p.unsafes = [] ∧ p.open_conds = [] ∧ p.num_open_conds = 0
      ∧ p.unexpanded_steps = []
      ∧ p.mutex_threats = [MutexThreat.placeholder]
      ∧ p.complete = false := by
  have h1 := add_goal_of_tautology cx ⟨[], 0, []⟩
    (if cx.params.ground_actions then cx.goal_formula_inst else cx.goal_formula)
    GOAL_ID false hg
  refine ⟨{ steps := [⟨0, cx.init_action⟩,
             ⟨GOAL_ID, ⟨cx.goal_aid, [], false,
               (if cx.params.ground_actions then cx.goal_formula_inst
                else cx.goal_formula), []⟩⟩],
            num_steps := 0, links := [], num_links := 0,
            orderings := cx.binaryO, bindings := cx.emptyB,
            decomposition_frames := [], num_decomposition_frames := 0,
            decomposition_links := [], num_decomposition_links := 0,
            unsafes := [], num_unsafes := 0,
            open_conds := [], num_open_conds := 0,
            unexpanded_steps := [], num_unexpanded_steps := 0,
            mutex_threats := [MutexThreat.placeholder] },
          ?_, rfl, rfl, rfl, rfl, rfl, rfl⟩
  simp only [make_initial_plan, h1, hd, Bool.false_eq_true, if_false]

/-- Witness for the amended C1 at the concrete empty-goal context. -/
theorem C1_witness :
    ∃ p : Plan Unit Unit, make_initial_plan ctx0 = .ok (some p)
      ∧ p.unsafes = [] ∧ p.open_conds = [] ∧ p.num_open_conds = 0
      ∧ p.unexpanded_steps = []
      ∧ p.mutex_threats = [MutexThreat.placeholder]
      ∧ p.complete = false :=
  C1_empty_goal_initial_plan ctx0 rfl rfl

/- ====================================================================== -/
/- C6                                                                     -/

/-- The spec's reading of plan comparison: `p1` is worse than `p2` when at
the first rank position where the two tuples differ `p1`'s value is
greater. -/
def lexWorse (r1 r2 : List Int) : Prop :=
  ∃ i, i < r1.length ∧ (∀ j, j < i → r1.getD j 0 = r2.getD j 0)
    ∧ r2.getD i 0 < r1.getD i 0

theorem lexWorse_cons (x y : Int) (xs ys : List Int) :
    lexWorse (x :: xs) (y :: ys) ↔ (y < x ∨ (x = y ∧ lexWorse xs ys)) := by
  constructor
  · rintro ⟨i, hi, hpre, hlt⟩
    cases i with
    | zero => exact Or.inl (by simpa using hlt)
    | succ i =>
      refine Or.inr ⟨by simpa using hpre 0 (Nat.succ_pos i), i, ?_, ?_, ?_⟩
      · simpa using hi
      · intro j hj
        simpa using hpre (j + 1) (by omega)
      · simpa using hlt
  · rintro (h | ⟨hxy, i, hi, hpre, hlt⟩)
    · exact ⟨0, by simp, by omega, by simpa using h⟩
    · refine ⟨i + 1, by simpa using hi, ?_, by simpa using hlt⟩
      intro j hj
      cases j with
      | zero => simpa using hxy
      | succ j => simpa using hpre j (by omega)

theorem lessAux_iff : ∀ (xs ys : List Int) (d : Int), xs.length = ys.length →
    (lessAux d xs ys = true ↔ (if d = 0 then lexWorse xs ys else 0 < d)) := by
  intro xs
  induction xs with
  | nil =>
    intro ys d h
    cases ys with
    | nil =>
      by_cases hd : d = 0
      · simp [lessAux, hd, lexWorse]
      · simp [lessAux, hd]
    | cons y ys => simp at h
  | cons x xs ih =>
    intro ys d h
    cases ys with
    | nil => simp at h
    | cons y ys =>
      have hlen : xs.length = ys.length := by simpa using h
      by_cases hd : d = 0
      · rw [lessAux, if_pos hd, if_pos hd, ih ys (x - y) hlen, lexWorse_cons]
        by_cases hxy : x - y = 0
        · rw [if_pos hxy]
          constructor
          · intro hw; exact Or.inr ⟨by omega, hw⟩
          · rintro (hlt | ⟨_, hw⟩)
            · omega
            · exact hw
        · rw [if_neg hxy]
          constructor
          · intro hlt; exact Or.inl (by omega)
          · rintro (hlt | ⟨heq, _⟩)
            · omega
            · omega
      · rw [lessAux, if_neg hd, if_neg hd]
        simp

/-- C6: plan comparison is lexicographic over the rank tuples, and
`operator<(p1, p2)` holds exactly when, at the first rank position where
the two tuples differ, `p1`'s value is greater than `p2`'s. -/
theorem C6_planLess_iff_lexWorse (r1 r2 : List Int) (hne : r1 ≠ [])
    (hlen : r1.length = r2.length) :
    planLess r1 r2 = true ↔ lexWorse r1 r2 := by
  cases r1 with
  | nil => exact absurd rfl hne
  | cons x xs =>
    cases r2 with
    | nil => simp at hlen
    | cons y ys =>
      have hlen' : xs.length = ys.length := by simpa using hlen
      rw [planLess, lessAux_iff xs ys (x - y) hlen', lexWorse_cons]
      by_cases hxy : x - y = 0
      · rw [if_pos hxy]
        constructor
        · intro hw; exact Or.inr ⟨by omega, hw⟩
        · rintro (hlt | ⟨_, hw⟩)
          · omega
          · exact hw
      · rw [if_neg hxy]
        constructor
        · intro hlt; exact Or.inl (by omega)
        · rintro (hlt | ⟨heq, _⟩)
          · omega
          · omega

/-- Witness for C6 at concrete rank tuples. -/
theorem C6_witness : planLess [3, 1] [2, 5] = true ∧ lexWorse [3, 1] [2, 5] :=
  ⟨rfl, (C6_planLess_iff_lexWorse [3, 1] [2, 5] (by simp) (by simp)).mp rfl⟩

/- ====================================================================== -/
/- C7                                                                     -/

/-- C7: an `Unsafe` flaw that is no longer an actual threat under the
current orderings and bindings is discharged by exactly one successor,
identical to the parent in every field except that the unsafe entry is
removed from the unsafe chain and `num_unsafes` is decremented by one. -/
theorem C7_bogus_unsafe_single_successor {O B : Type} (cx : Ctx O B)
    (p : Plan O B) (u : Unsafe)
    (hb : (cx.oOps.possibly_not_after p.orderings u.link.from_id
             u.link.effect_time u.step_id (end_timeE u.effect)
           && cx.oOps.possibly_not_before p.orderings u.link.to_id
             (end_timeF u.link.condition_time) u.step_id (end_timeE u.effect)
           && (cx.bOps.affectsU p.bindings u.effect.lit u.step_id
             u.link.condition u.link.to_id).isSome) = false)
    (h1 : 1 ≤ p.num_unsafes) (h2 : p.num_unsafes < 2 ^ 64) :
    handle_unsafe cx p u =
      .ok [{ p with
             unsafes := chainRemove p.unsafes u,
             num_unsafes := p.num_unsafes - 1 }] := by
  have hs : sub1' p.num_unsafes = p.num_unsafes - 1 := by unfold sub1'; omega
  by_cases hab : (cx.oOps.possibly_not_after p.orderings u.link.from_id
      u.link.effect_time u.step_id (end_timeE u.effect)
    && cx.oOps.possibly_not_before p.orderings u.link.to_id
      (end_timeF u.link.condition_time) u.step_id (end_timeE u.effect)) = true
  · rw [hab] at hb
    simp only [Bool.true_and] at hb
    cases haffm : cx.bOps.affectsU p.bindings u.effect.lit u.step_id
        u.link.condition u.link.to_id with
    | some l => rw [haffm] at hb; simp at hb
    | none => simp [ handle_unsafe, hab, haffm, bogusUnsafePlan, hs, pure, Except.pure]
  · simp [ handle_unsafe, hab, bogusUnsafePlan, hs, pure, Except.pure]

/-- A concrete literal, effect, link and unsafe flaw. -/
def lp : Lit := ⟨1, false, []⟩

def e0 : Effect := ⟨lp, .atStart, .top, .top, []⟩

def link0 : Link := ⟨0, .atEnd, GOAL_ID, lp, .atStartF⟩

def u0 : Unsafe := ⟨link0, 1, e0⟩

/-- A concrete parent plan holding the unsafe flaw `u0`. -/
def pC7 : Plan Unit Unit :=
  { steps := [⟨1, ⟨8, ['a'], false, .top, [e0]⟩⟩, ⟨0, initAct⟩],
    num_steps := 1, links := [link0], num_links := 1,
    orderings := (), bindings := (),
    decomposition_frames := [], num_decomposition_frames := 0,
    decomposition_links := [], num_decomposition_links := 0,
    unsafes := [u0], num_unsafes := 1,
    open_conds := [], num_open_conds := 0,
    unexpanded_steps := [], num_unexpanded_steps := 0,
    mutex_threats := [] }

/-- Witness for C7: with the trivial orderings the threat condition fails,
so `u0` is a bogus flaw. -/
theorem C7_witness :
    handle_unsafe ctx0 pC7 u0 =
      .ok [{ pC7 with
             unsafes := chainRemove pC7.unsafes u0,
             num_unsafes := pC7.num_unsafes - 1 }] :=
  C7_bogus_unsafe_single_successor ctx0 pC7 u0 rfl (by decide) (by decide)

/- ====================================================================== -/
/- C8                                                                     -/

theorem foldl_filterMap_count {B P : Type} (g : Nat → Option B) (mk : B → P) :
    ∀ (dom : List Nat) (acc : List P) (n : Nat),
      (dom.foldl (fun (ac : List P × Nat) name =>
          match g name with
          | some b => (ac.1 ++ [mk b], ac.2 + 1)
          | none => ac) (acc, n)).1
        = acc ++ dom.filterMap (fun name => (g name).map mk) := by
  intro dom
  induction dom with
  | nil => intro acc n; simp
  | cons name rest ih =>
    intro acc n
    cases hg : g name with
    | some b => simp [hg, ih]
    | none => simp [hg, ih]

/-- C8: `handle_inequality` branches on the variable whose domain is
smaller: for every object in that variable's domain it emits, subject to
binding consistency, one successor equating that variable with the object
and constraining the other side to differ from it, with the inequality
open condition removed. -/
theorem C8_handle_inequality_branches_on_smaller_domain {O B : Type}
    (cx : Ctx O B) (p : Plan O B) (nv1 nid1 nv2 nid2 : Nat)
    (oc : OpenCondition) :
    ((cx.bOps.vdomain p.bindings nv1 (resolveId nid1 oc.step_id)).length <
        (cx.bOps.vdomain p.bindings nv2 (resolveId nid2 oc.step_id)).length →
      (handle_inequality cx p nv1 nid1 nv2 nid2 oc false).1 =
        (cx.bOps.vdomain p.bindings nv1 (resolveId nid1 oc.step_id)).filterMap
          (fun o =>
            (cx.bOps.add p.bindings
              [⟨nv1, resolveId nid1 oc.step_id, o, 0, true⟩,
               ⟨nv2, resolveId nid2 oc.step_id, o, 0, false⟩] false).map
              (fun b => { p with
                bindings := b,
                open_conds := chainRemove p.open_conds oc,
                num_open_conds := sub1' p.num_open_conds })))
    ∧ ((cx.bOps.vdomain p.bindings nv2 (resolveId nid2 oc.step_id)).length <
        (cx.bOps.vdomain p.bindings nv1 (resolveId nid1 oc.step_id)).length →
      (handle_inequality cx p nv1 nid1 nv2 nid2 oc false).1 =
        (cx.bOps.vdomain p.bindings nv2 (resolveId nid2 oc.step_id)).filterMap
          (fun o =>
            (cx.bOps.add p.bindings
              [⟨nv2, resolveId nid2 oc.step_id, o, 0, true⟩,
               ⟨nv1, resolveId nid1 oc.step_id, o, 0, false⟩] false).map
              (fun b => { p with
                bindings := b,
                open_conds := chainRemove p.open_conds oc,
                num_open_conds := sub1' p.num_open_conds }))) := by
  constructor
  · intro h
    simp only [handle_inequality, if_pos h]
    exact foldl_filterMap_count _ _ _ [] 0
  · intro h
    have h' : ¬((cx.bOps.vdomain p.bindings nv1 (resolveId nid1 oc.step_id)).length <
        (cx.bOps.vdomain p.bindings nv2 (resolveId nid2 oc.step_id)).length) := by
      omega
    simp only [handle_inequality, if_neg h']
    exact foldl_filterMap_count _ _ _ [] 0

/-- A concrete inequality open condition `?v1(3) ≠ ?v2(3)`. -/
def oc8 : OpenCondition := ⟨3, .ineq 1 0 2 0, .atStartF⟩

/-- A concrete context whose bindings report domain `{5}` for variable 1
and `{7, 8}` for every other variable. -/
def ctxC8 : Ctx Unit Unit :=
  { ctx0 with
    bOps := { bOps0 with
              vdomain := fun _ v _ => if v = 1 then [5] else [7, 8] } }

/-- A concrete plan holding the inequality open condition `oc8`. -/
def pC8 : Plan Unit Unit :=
  { steps := [⟨0, initAct⟩], num_steps := 0, links := [], num_links := 0,
    orderings := (), bindings := (),
    decomposition_frames := [], num_decomposition_frames := 0,
    decomposition_links := [], num_decomposition_links := 0,
    unsafes := [], num_unsafes := 0,
    open_conds := [oc8], num_open_conds := 1,
    unexpanded_steps := [], num_unexpanded_steps := 0,
    mutex_threats := [] }

/-- Witness for C8: variable 1's domain `{5}` is smaller than variable 2's
`{7, 8}`. -/
theorem C8_witness :
    (handle_inequality ctxC8 pC8 1 0 2 0 oc8 false).1 =
      (ctxC8.bOps.vdomain pC8.bindings 1 (resolveId 0 oc8.step_id)).filterMap
        (fun o =>
          (ctxC8.bOps.add pC8.bindings
            [⟨1, resolveId 0 oc8.step_id, o, 0, true⟩,
             ⟨2, resolveId 0 oc8.step_id, o, 0, false⟩] false).map
            (fun b => { pC8 with
              bindings := b,
              open_conds := chainRemove pC8.open_conds oc8,
              num_open_conds := sub1' pC8.num_open_conds })) :=
  (C8_handle_inequality_branches_on_smaller_domain ctxC8 pC8 1 0 2 0 oc8).1
    (by decide)

/- ====================================================================== -/
/- C10                                                                    -/

theorem add_step_filter {O B : Type} (cx : Ctx O B) (p : Plan O B)
    (literal : Lit) (oc : OpenCondition) : ∀ achievers,
    add_step cx p literal oc achievers =
      add_step cx p literal oc
        (achievers.filter fun ae => decide (ae.1.name.take 1 ≠ ['<'])) := by
  intro achievers
  induction achievers with
  | nil => rfl
  | cons ae rest ih =>
    by_cases hn : ae.1.name.take 1 = ['<'] <;>
      simp [add_step, List.filter_cons, hn, ih]

theorem addable_loop_filter {O B : Type} (cx : Ctx O B) (p : Plan O B)
    (literal : Lit) (oc : OpenCondition) (limit : Nat) : ∀ achievers n,
    addable_loop cx p literal oc limit achievers n =
      addable_loop cx p literal oc limit
        (achievers.filter fun ae => decide (ae.1.name.take 1 ≠ ['<'])) n := by
  intro achievers
  induction achievers with
  | nil => intro n; rfl
  | cons ae rest ih =>
    intro n
    by_cases hn : ae.1.name.take 1 = ['<'] <;>
      simp [addable_loop, List.filter_cons, hn, ih]

/-- C10: the add-step repair never introduces a step for an achiever
action whose name begins with `<`: both `add_step` and `addable_steps`
behave as if every such (action, effect) pair had been filtered out, so
every step added this way carries a user-domain action. -/
theorem C10_dummy_achievers_skipped {O B : Type} (cx : Ctx O B)
    (p : Plan O B) (literal : Lit) (oc : OpenCondition) (limit : Nat)
    (achievers : List (Action × Effect)) :
    (add_step cx p literal oc achievers =
      add_step cx p literal oc
        (achievers.filter fun ae => decide (ae.1.name.take 1 ≠ ['<'])))
    ∧ (∀ l, literal_achievers cx literal = some l →
        addable_steps cx p literal oc limit =
          addable_loop cx p literal oc limit
            (l.filter fun ae => decide (ae.1.name.take 1 ≠ ['<'])) 0) := by
  constructor
  · exact add_step_filter cx p literal oc achievers
  · intro l h
    unfold addable_steps
    rw [h]
    exact addable_loop_filter cx p literal oc limit l 0

/-- A concrete dummy achiever (its name begins with `<`) and a concrete
user-domain achiever. -/
def aDummy : Action := ⟨7, ['<', 'g'], false, .top, [e0]⟩

def aReal : Action := ⟨8, ['a'], false, .top, [e0]⟩

/-- A concrete literal open condition on the goal step. -/
def ocLit : OpenCondition := ⟨GOAL_ID, .lit lp, .atStartF⟩

/-- A concrete context whose positive achiever map lists both achievers
for predicate 1. -/
def ctxC10 : Ctx Unit Unit :=
  { ctx0 with achieves_pred := [(1, [(aDummy, e0), (aReal, e0)])] }

/-- Witness for C10 at the concrete achiever list containing a dummy. -/
theorem C10_witness :
    (add_step ctxC10 pC7 lp ocLit [(aDummy, e0), (aReal, e0)] =
      add_step ctxC10 pC7 lp ocLit
        ([(aDummy, e0), (aReal, e0)].filter
          fun ae => decide (ae.1.name.take 1 ≠ ['<'])))
    ∧ addable_steps ctxC10 pC7 lp ocLit 5 =
        addable_loop ctxC10 pC7 lp ocLit 5
          ([(aDummy, e0), (aReal, e0)].filter
            fun ae => decide (ae.1.name.take 1 ≠ ['<'])) 0 :=
  ⟨(C10_dummy_achievers_skipped ctxC10 pC7 lp ocLit 5
      [(aDummy, e0), (aReal, e0)]).1,
   (C10_dummy_achievers_skipped ctxC10 pC7 lp ocLit 5
      [(aDummy, e0), (aReal, e0)]).2 [(aDummy, e0), (aReal, e0)] rfl⟩

/- ====================================================================== -/
/- C2                                                                     -/

/-- A concrete composite action and the unexpanded-composite-step flaw for
its step. -/
def aComp : Action := ⟨20, ['c'], true, .top, []⟩

def uC2 : UnexpandedCompositeStep := ⟨⟨2, aComp⟩⟩

/-- A concrete context in which every `possibly_before` query holds and
every unification succeeds with the empty unifier. -/
def ctxC2 : Ctx Unit Unit :=
  { ctx0 with
    oOps := { oOps0 with possibly_before := fun _ _ _ _ _ => true },
    bOps := { bOps0 with unify := fun _ _ _ _ _ => some [] } }

/-- A concrete parent plan with one literal open condition and one
unexpanded composite step (step 2). -/
def pC2 : Plan Unit Unit :=
  { steps := [⟨1, aReal⟩, ⟨2, aComp⟩, ⟨0, initAct⟩,
              ⟨GOAL_ID, ⟨999, [], false, .top, []⟩⟩],
    num_steps := 2, links := [], num_links := 0,
    orderings := (), bindings := (),
    decomposition_frames := [], num_decomposition_frames := 0,
    decomposition_links := [], num_decomposition_links := 0,
    unsafes := [], num_unsafes := 0,
    open_conds := [ocLit], num_open_conds := 1,
    unexpanded_steps := [uC2], num_unexpanded_steps := 1,
    mutex_threats := [] }

/-- The successor `make_link` builds on the reuse path for `pC2`: the
unexpanded-steps chain has been dropped (the chain variable is initialized
to null and only assigned on the new-step path) while the stored count is
still the parent's. -/
def qC2 : Plan Unit Unit :=
  { steps := pC2.steps, num_steps := 2,
    links := [⟨1, .atStart, GOAL_ID, lp, .atStartF⟩], num_links := 1,
    orderings := (), bindings := (),
    decomposition_frames := [], num_decomposition_frames := 0,
    decomposition_links := [], num_decomposition_links := 0,
    unsafes := [], num_unsafes := 0,
    open_conds := [], num_open_conds := 0,
    unexpanded_steps := [], num_unexpanded_steps := 1,
    mutex_threats := [] }

/-- C2: evaluation at the failing input.  Repairing the literal open
condition by reusing existing step 1 yields, through `make_link`, a single
successor whose stored `num_unexpanded_steps` is still 1 while its
unexpanded-steps chain is empty — the count does not equal the chain
length, violating the stated invariant. -/
theorem C2_reuse_path_count_chain_mismatch :
    reuse_step ctxC2 pC2 lp ocLit [(aReal, e0)] = .ok [qC2]
    ∧ pC2.num_unexpanded_steps = 1 ∧ pC2.unexpanded_steps.length = 1
    ∧ qC2.num_unexpanded_steps = 1 ∧ qC2.unexpanded_steps.length = 0 :=
  ⟨rfl, rfl, rfl, rfl, rfl⟩

/- ====================================================================== -/
/- C9                                                                     -/

theorem installSteps_unexpanded_pre {O B : Type} (cx : Ctx O B) (p : Plan O B)
    (total : Nat) (base : List UnexpandedCompositeStep) :
    ∀ (n : Nat) (inst : DecompositionFrame) (st : InstallSt O B)
      (inst' : DecompositionFrame) (st' : InstallSt O B),
      (∃ e, st.new_unexpanded_steps = e ++ base) →
      installSteps cx p total n inst st = .ok (some (inst', st')) →
      ∃ e, st'.new_unexpanded_steps = e ++ base := by
  intro n
  induction n with
  | zero =>
    intro inst st inst' st' hpre h
    simp only [installSteps] at h
    cases h
    exact hpre
  | succ n ih =>
    intro inst st inst' st' hpre h
    rcases hpre with ⟨e0, he⟩
    simp only [installSteps] at h
    split at h
    · exact absurd h (by simp)
    · split at h
      · exact absurd h (by simp)
      · split at h
        · exact absurd h (by simp)
        · refine ih _ _ _ _ ?_ h
          cases hcomp : (inst.steps.getD (total - Nat.succ n)
              ⟨0, cx.init_action⟩).action.composite with
          | true =>
            refine ⟨⟨⟨p.num_steps + 1 + (total - Nat.succ n),
              (inst.steps.getD (total - Nat.succ n)
                ⟨0, cx.init_action⟩).action⟩⟩ :: e0, ?_⟩
            simp [he]
          | false =>
            refine ⟨e0, ?_⟩
            simp [he]

theorem add_decomposition_frame_shape {O B : Type} (cx : Ctx O B)
    (p : Plan O B) (u : UnexpandedCompositeStep) (d : Decomposition)
    (q : Plan O B)
    (h : add_decomposition_frame cx p u d = .ok (some q)) :
    q.decomposition_links =
      ⟨u.step_id, DecompositionFrame.ofDecomposition d⟩ :: p.decomposition_links
    ∧ q.num_decomposition_links = p.num_decomposition_links + 1
    ∧ q.decomposition_frames =
        DecompositionFrame.ofDecomposition d :: p.decomposition_frames
    ∧ ∃ extra, q.unexpanded_steps = chainRemove (extra ++ p.unexpanded_steps) u := by
  simp only [add_decomposition_frame] at h
  split at h
  · exact absurd h (by simp)
  · exact absurd h (by simp)
  · next inst st heq =>
    have hex : ∃ e, st.new_unexpanded_steps = e ++ p.unexpanded_steps :=
      installSteps_unexpanded_pre cx p _ p.unexpanded_steps _ _ _ _ _
        ⟨[], rfl⟩ heq
    split at h
    · exact absurd h (by simp)
    · split at h
      · exact absurd h (by simp)
      · split at h
        · exact absurd h (by simp)
        · split at h
          · exact absurd h (by simp)
          · simp only [Except.ok.injEq, Option.some.injEq] at h
            subst h
            rcases hex with ⟨extra, hx⟩
            exact ⟨rfl, rfl, rfl, ⟨extra, by simp [hx]⟩⟩

theorem decompLoop_spec {O B : Type} (cx : Ctx O B) (p : Plan O B)
    (u : UnexpandedCompositeStep) :
    ∀ (ads : List (Action × Decomposition)) (acc plans : List (Plan O B)),
      decompLoop cx p u ads acc = .ok plans →
      (∀ q, q ∈ plans → q ∈ acc ∨
        ∃ ad, ad ∈ ads ∧ add_decomposition_frame cx p u ad.2 = .ok (some q))
      ∧ (∀ ad, ad ∈ ads → ∀ q,
          add_decomposition_frame cx p u ad.2 = .ok (some q) → q ∈ plans)
      ∧ (∀ q, q ∈ acc → q ∈ plans) := by
  intro ads
  induction ads with
  | nil =>
    intro acc plans h
    simp only [decompLoop] at h
    cases h
    exact ⟨fun q hq => Or.inl hq, fun ad had => by simp at had, fun q hq => hq⟩
  | cons ad rest ih =>
    intro acc plans h
    simp only [decompLoop] at h
    split at h
    · exact absurd h (by simp)
    · next q' hr =>
      obtain ⟨h1, h2, h3⟩ := ih (acc ++ [q']) plans h
      refine ⟨?_, ?_, ?_⟩
      · intro q hq
        rcases h1 q hq with hin | ⟨ad', hmem, hok⟩
        · rcases List.mem_append.mp hin with hl | hl
          · exact Or.inl hl
          · have hq' : q = q' := by simpa using hl
            subst hq'
            exact Or.inr ⟨ad, List.mem_cons_self ad rest, hr⟩
        · exact Or.inr ⟨ad', List.mem_cons_of_mem ad hmem, hok⟩
      · intro ad' hmem q hok
        rcases List.mem_cons.mp hmem with heq | hmem'
        · subst heq
          have hqq : q = q' := by
            rw [hok] at hr
            cases hr
            rfl
          subst hqq
          exact h3 q (List.mem_append_right _ (by simp))
        · exact h2 ad' hmem' q hok
      · intro q hq
        exact h3 q (List.mem_append_left _ hq)
    · next hr =>
      obtain ⟨h1, h2, h3⟩ := ih acc plans h
      refine ⟨?_, ?_, h3⟩
      · intro q hq
        rcases h1 q hq with hl | ⟨ad', hm, hok⟩
        · exact Or.inl hl
        · exact Or.inr ⟨ad', List.mem_cons_of_mem ad hm, hok⟩
      · intro ad' hmem q hok
        rcases List.mem_cons.mp hmem with heq | hmem'
        · subst heq
          rw [hok] at hr
          cases hr
        · exact h2 ad' hmem' q hok

/-- C9: for an `UnexpandedCompositeStep` flaw, the planner looks up every
decomposition associated with the step's action in the composite-achiever
multimap; each applicable decomposition yields at most one successor, and
every successful successor carries the new `DecompositionLink` (whose
`composite_id` is the flaw's step id) together with the instantiated frame,
with the unexpanded-composite-step flaw removed. -/
theorem C9_handle_unexpanded_composite_step {O B : Type} (cx : Ctx O B)
    (p : Plan O B) (u : UnexpandedCompositeStep) :
    (∀ plans, handle_unexpanded_composite_step cx p u = .ok plans →
      (∀ q, q ∈ plans → ∃ ad, ad ∈ cx.achieves_composite
        ∧ ad.1.aid = u.step.action.aid
        ∧ add_decomposition_frame cx p u ad.2 = .ok (some q))
      ∧ (∀ ad, ad ∈ cx.achieves_composite → ad.1.aid = u.step.action.aid →
          ∀ q, add_decomposition_frame cx p u ad.2 = .ok (some q) →
            q ∈ plans))
    ∧ (∀ d q, add_decomposition_frame cx p u d = .ok (some q) →
        q.decomposition_links =
          ⟨u.step_id, DecompositionFrame.ofDecomposition d⟩
            :: p.decomposition_links
        ∧ q.num_decomposition_links = p.num_decomposition_links + 1
        ∧ q.decomposition_frames =
            DecompositionFrame.ofDecomposition d :: p.decomposition_frames
        ∧ ∃ extra,
            q.unexpanded_steps = chainRemove (extra ++ p.unexpanded_steps) u) := by
  constructor
  · intro plans h
    obtain ⟨h1, h2, _⟩ := decompLoop_spec cx p u _ [] plans h
    constructor
    · intro q hq
      rcases h1 q hq with hin | ⟨ad, hmem, hok⟩
      · simp at hin
      · rcases List.mem_filter.mp hmem with ⟨hm, hpred⟩
        exact ⟨ad, hm, by simpa using hpred, hok⟩
    · intro ad hm haid q hok
      exact h2 ad (List.mem_filter.mpr ⟨hm, by simpa using haid⟩) q hok
  · intro d q h
    exact add_decomposition_frame_shape cx p u d q h

/-- A concrete sub-action and one-pseudo-step decomposition of `aComp`. -/
def aSub : Action := ⟨21, ['s'], false, .top, []⟩

def d9 : Decomposition := ⟨[⟨1, aSub⟩], [], [], [], 1, 1⟩

/-- The unexpanded-composite-step flaw for composite step 3. -/
def u9 : UnexpandedCompositeStep := ⟨⟨3, aComp⟩⟩

/-- A concrete context whose composite-achiever multimap holds `d9`. -/
def ctx9 : Ctx Unit Unit :=
  { ctx0 with achieves_composite := [(aComp, d9)] }

/-- A concrete parent plan holding composite step 3 and its flaw. -/
def p9 : Plan Unit Unit :=
  { steps := [⟨3, aComp⟩, ⟨0, initAct⟩], num_steps := 3,
    links := [], num_links := 0,
    orderings := (), bindings := (),
    decomposition_frames := [], num_decomposition_frames := 0,
    decomposition_links := [], num_decomposition_links := 0,
    unsafes := [], num_unsafes := 0,
    open_conds := [], num_open_conds := 0,
    unexpanded_steps := [u9], num_unexpanded_steps := 1,
    mutex_threats := [] }

/-- The successor plan from expanding step 3 via `d9`: pseudo-step 1
becomes plan step 4, the flaw is removed, and the decomposition link and
frame are recorded. -/
def q9 : Plan Unit Unit :=
  { steps := [⟨4, aSub⟩, ⟨3, aComp⟩, ⟨0, initAct⟩], num_steps := 4,
    links := [], num_links := 0,
    orderings := (), bindings := (),
    decomposition_frames := [DecompositionFrame.ofDecomposition d9],
    num_decomposition_frames := 1,
    decomposition_links := [⟨3, DecompositionFrame.ofDecomposition d9⟩],
    num_decomposition_links := 1,
    unsafes := [], num_unsafes := 0,
    open_conds := [], num_open_conds := 0,
    unexpanded_steps := [], num_unexpanded_steps := 0,
    mutex_threats := [] }

/-- Witness for C9: the expansion of composite step 3 via `d9`. -/
theorem C9_witness :
    handle_unexpanded_composite_step ctx9 p9 u9 = .ok [q9]
    ∧ (q9.decomposition_links =
        ⟨u9.step_id, DecompositionFrame.ofDecomposition d9⟩
          :: p9.decomposition_links
      ∧ q9.num_decomposition_links = p9.num_decomposition_links + 1
      ∧ q9.decomposition_frames =
          DecompositionFrame.ofDecomposition d9 :: p9.decomposition_frames
      ∧ ∃ extra,
          q9.unexpanded_steps = chainRemove (extra ++ p9.unexpanded_steps) u9) :=
  ⟨rfl, (C9_handle_unexpanded_composite_step ctx9 p9 u9).2 d9 q9 rfl⟩

end VHP
